import Mathlib

/-!
Verification of the lyrics-to-slides scripts: a shallow embedding of the
pure text-processing functions of `create_lyrics_pptx.py`,
`webapp/backend/main.py` and `extract_lyrics.py`, with proofs of the
spec's testable properties.  Python strings are modelled as `List Char`.
-/

set_option maxHeartbeats 1000000

/-- Layout dictionary `{'columns': ..., 'font_size': ...}` returned by
`get_optimal_layout`. -/
structure Layout where
  columns : Nat
  font_size : Nat
deriving DecidableEq, Repr

/-- Embedding of `get_optimal_layout` from `create_lyrics_pptx.py`
(lines 93-108): a breakpoint table on `len(lines)`. -/
def get_optimal_layout (lines : List (List Char)) : Layout :=
  if lines.length ≤ 15 then ⟨1, 22⟩
  else if lines.length ≤ 28 then ⟨2, 18⟩
  else if lines.length ≤ 42 then ⟨3, 16⟩
  else if lines.length ≤ 56 then ⟨4, 14⟩
  else if lines.length ≤ 72 then ⟨4, 12⟩
  else ⟨5, 10⟩

namespace webapp

/-- Embedding of `get_optimal_layout` from `webapp/backend/main.py`
(lines 160-171).  It lacks the `line_count <= 72` branch of the script
version. -/
def get_optimal_layout (lines : List (List Char)) : Layout :=
  if lines.length ≤ 15 then ⟨1, 22⟩
  else if lines.length ≤ 28 then ⟨2, 18⟩
  else if lines.length ≤ 42 then ⟨3, 16⟩
  else if lines.length ≤ 56 then ⟨4, 14⟩
  else ⟨5, 10⟩

end webapp

/-- Embedding of `split_into_columns` from `create_lyrics_pptx.py`
(lines 111-119); the same slicing loop is inlined in
`webapp/backend/main.py` `generate_pptx` (lines 259-264), hence the
polymorphic element type.  `lines[start:end]` is `(drop start).take
(end - start)` with `end - start = lines_per_col`. -/
def split_into_columns (lines : List α) (num_columns : Nat) : List (List α) :=
  let lines_per_col := (lines.length + num_columns - 1) / num_columns
  (List.range num_columns).map
    (fun i => ((lines.drop (i * lines_per_col)).take lines_per_col))

lemma join_map_range_slice (l : List α) (n : Nat) :
    ∀ k, ((List.range k).map (fun i => ((l.drop (i * n)).take n))).flatten
      = l.take (k * n) := by
  intro k
  induction k with
  | zero => simp
  | succ k ih =>
      rw [List.range_succ, List.map_append, List.flatten_append, ih]
      simp [Nat.succ_mul, List.take_add]

lemma ceil_div_mul_ge (len k : Nat) (hk : 1 ≤ k) :
    len ≤ k * ((len + k - 1) / k) := by
  have hmod := Nat.div_add_mod (len + k - 1) k
  have hlt : (len + k - 1) % k < k := Nat.mod_lt _ (by omega)
  omega

/-- C1: concatenating the columns of `split_into_columns lines k` in
order gives back `lines` exactly, for every `k ≥ 1`. -/
theorem split_into_columns_join (lines : List α) (k : Nat) (hk : 1 ≤ k) :
    (split_into_columns lines k).flatten = lines := by
  unfold split_into_columns
  rw [join_map_range_slice]
  exact List.take_of_length_le (le_trans (ceil_div_mul_ge _ _ hk) (le_refl _))

/-- Witness for `split_into_columns_join` at a concrete input. -/
theorem split_into_columns_join_witness :
    (1 : Nat) ≤ 2 ∧
      (split_into_columns [['a'], ['b'], ['c']] 2).flatten = [['a'], ['b'], ['c']] :=
  ⟨by decide, split_into_columns_join [['a'], ['b'], ['c']] 2 (by decide)⟩

/-- C2: both layout tables depend only on the number of lines, never on
their contents. -/
theorem get_optimal_layout_depends_only_on_length
    (lines1 lines2 : List (List Char)) (h : lines1.length = lines2.length) :
    get_optimal_layout lines1 = get_optimal_layout lines2 ∧
      webapp.get_optimal_layout lines1 = webapp.get_optimal_layout lines2 := by
  unfold get_optimal_layout webapp.get_optimal_layout
  rw [h]
  exact ⟨rfl, rfl⟩

/-- Witness for `get_optimal_layout_depends_only_on_length` at concrete
inputs of equal length but different contents. -/
theorem get_optimal_layout_depends_only_on_length_witness :
    ([['a']] : List (List Char)).length = [['z']].length ∧
      get_optimal_layout [['a']] = get_optimal_layout [['z']] ∧
      webapp.get_optimal_layout [['a']] = webapp.get_optimal_layout [['z']] :=
  ⟨by decide, get_optimal_layout_depends_only_on_length [['a']] [['z']] (by decide)⟩

/-- C3 counterexample: at 60 lines the script chooses 4 columns at font
12 while the webapp chooses 5 columns at font 10. -/
theorem layout_tables_differ_at_60 :
    get_optimal_layout (List.replicate 60 ([] : List Char))
      ≠ webapp.get_optimal_layout (List.replicate 60 ([] : List Char)) := by
  decide

/-- C3 amended: the two layout tables agree on every list whose length
is at most 56 or greater than 72. -/
theorem layout_tables_agree_outside_57_72 (lines : List (List Char))
    (h : lines.length ≤ 56 ∨ 72 < lines.length) :
    get_optimal_layout lines = webapp.get_optimal_layout lines := by
  unfold get_optimal_layout webapp.get_optimal_layout
  split_ifs <;> first | rfl | omega

/-- Witness for `layout_tables_agree_outside_57_72` at a concrete input. -/
theorem layout_tables_agree_outside_57_72_witness :
    (([['a']] : List (List Char)).length ≤ 56 ∨ 72 < ([['a']] : List (List Char)).length) ∧
      get_optimal_layout [['a']] = webapp.get_optimal_layout [['a']] :=
  ⟨by decide, layout_tables_agree_outside_57_72 [['a']] (by decide)⟩

/-- C4: both breakpoint tables are monotonic — more lines never means
fewer columns, and never means a larger font. -/
theorem get_optimal_layout_monotone (lines1 lines2 : List (List Char))
    (h : lines1.length ≤ lines2.length) :
    (get_optimal_layout lines1).columns ≤ (get_optimal_layout lines2).columns ∧
      (get_optimal_layout lines2).font_size ≤ (get_optimal_layout lines1).font_size ∧
      (webapp.get_optimal_layout lines1).columns ≤ (webapp.get_optimal_layout lines2).columns ∧
      (webapp.get_optimal_layout lines2).font_size ≤ (webapp.get_optimal_layout lines1).font_size := by
  unfold get_optimal_layout webapp.get_optimal_layout
  split_ifs <;> dsimp only <;> omega

/-- Witness for `get_optimal_layout_monotone` at concrete inputs. -/
theorem get_optimal_layout_monotone_witness :
    (([] : List (List Char)).length ≤ [['a']].length) ∧
      (get_optimal_layout []).columns ≤ (get_optimal_layout [['a']]).columns :=
  ⟨by decide, (get_optimal_layout_monotone [] [['a']] (by decide)).1⟩

/-- Model of Python `str.replace(old, '')` for a one-character `old`:
every occurrence of `old` is removed. -/
def pyRemoveChar (text : List Char) (old : Char) : List Char :=
  text.filter (fun c => c ≠ old)

/-- Embedding of `clean_punctuation` from `create_lyrics_pptx.py`
(lines 256-258); `webapp/backend/main.py` lines 156-157 are identical:
`text.replace(',', '').replace('.', '')`. -/
def clean_punctuation (text : List Char) : List Char :=
  pyRemoveChar (pyRemoveChar text ',') '.'

lemma comma_not_mem_clean_punctuation (t : List Char) :
    ',' ∉ clean_punctuation t ∧ '.' ∉ clean_punctuation t := by
  simp [clean_punctuation, pyRemoveChar, List.mem_filter]

/-- C5: cleaning punctuation is idempotent, and its output contains no
comma and no period. -/
theorem clean_punctuation_props (t : List Char) :
    clean_punctuation (clean_punctuation t) = clean_punctuation t ∧
      ',' ∉ clean_punctuation t ∧ '.' ∉ clean_punctuation t := by
  refine ⟨?_, comma_not_mem_clean_punctuation t⟩
  have h1 : pyRemoveChar (clean_punctuation t) ',' = clean_punctuation t := by
    apply List.filter_eq_self.mpr
    intro a ha
    have := (comma_not_mem_clean_punctuation t).1
    simp only [ne_eq, decide_eq_true_eq]
    intro hc
    exact this (hc ▸ ha)
  have h2 : pyRemoveChar (clean_punctuation t) '.' = clean_punctuation t := by
    apply List.filter_eq_self.mpr
    intro a ha
    have := (comma_not_mem_clean_punctuation t).2
    simp only [ne_eq, decide_eq_true_eq]
    intro hc
    exact this (hc ▸ ha)
  show pyRemoveChar (pyRemoveChar (clean_punctuation t) ',') '.' = clean_punctuation t
  rw [h1, h2]

/-- Embedding of `is_hebrew` from `create_lyrics_pptx.py` (lines
248-253); `webapp/backend/main.py` lines 149-153 are identical: scan the
characters and return true on the first one between U+0590 and U+05FF. -/
def is_hebrew (text : List Char) : Bool :=
  text.any (fun c => decide ('֐' ≤ c ∧ c ≤ '׿'))

/-- Embedding of `is_hebrew_song` from `create_lyrics_pptx.py` (lines
122-129): hebrew title, or at least 2 hebrew lines among the first 5. -/
def is_hebrew_song (title : List Char) (lyrics_lines : List (List Char)) : Bool :=
  if is_hebrew title then true
  else decide (2 ≤ (lyrics_lines.take 5).countP (fun line => is_hebrew line))

lemma countP_take_of_map_eq (l1 l2 : List (List Char)) (n : Nat)
    (h : l1.map is_hebrew = l2.map is_hebrew) :
    (l1.take n).countP (fun line => is_hebrew line) =
      (l2.take n).countP (fun line => is_hebrew line) := by
  have key : ∀ l : List (List Char),
      (l.take n).countP (fun line => is_hebrew line) =
        ((l.map is_hebrew).take n).countP (fun b => b) := by
    intro l
    rw [← List.map_take, List.countP_map]
    rfl
  rw [key, key, h]

/-- C8: `is_hebrew` detects exactly the characters with code point in
the range U+0590 through U+05FF, and the right-to-left flag
`is_hebrew_song` is derived solely from `is_hebrew` applied to the
title and the lyric lines. -/
theorem is_hebrew_props :
    (∀ t : List Char,
      is_hebrew t = true ↔ ∃ c ∈ t, 0x0590 ≤ c.toNat ∧ c.toNat ≤ 0x05FF) ∧
    (∀ (t1 t2 : List Char) (l1 l2 : List (List Char)),
      is_hebrew t1 = is_hebrew t2 → l1.map is_hebrew = l2.map is_hebrew →
        is_hebrew_song t1 l1 = is_hebrew_song t2 l2) := by
  constructor
  · intro t
    unfold is_hebrew
    rw [List.any_eq_true]
    constructor
    · rintro ⟨c, hc, hdec⟩
      exact ⟨c, hc, of_decide_eq_true hdec⟩
    · rintro ⟨c, hc, hrange⟩
      exact ⟨c, hc, decide_eq_true hrange⟩
  · intro t1 t2 l1 l2 ht hl
    unfold is_hebrew_song
    rw [ht, countP_take_of_map_eq l1 l2 5 hl]

/-- Witness for `is_hebrew_props` at concrete inputs: the letter aleph
is detected, and the derivation property applied to two concrete songs. -/
theorem is_hebrew_props_witness :
    (∃ c ∈ ['א'], 0x0590 ≤ c.toNat ∧ c.toNat ≤ 0x05FF) ∧
      is_hebrew_song ['א'] [['x']] = is_hebrew_song ['א'] [['y']] :=
  ⟨(is_hebrew_props.1 ['א']).mp (by decide),
    is_hebrew_props.2 ['א'] ['א'] [['x']] [['y']] (by decide) (by decide)⟩

/-- Embedding of `sanitize_filename` from `extract_lyrics.py` (lines
21-28): `re.sub` with the character class `[<>:"/\|?*]` and empty
replacement deletes every occurrence of those nine characters, then
spaces become underscores, then the name is truncated to 100
characters. -/
def sanitize_filename (name : List Char) : List Char :=
  let no_invalid := name.filter (fun c => !(['<', '>', ':', '"', '/', '\\', '|', '?', '*'].contains c))
  let underscored := no_invalid.map (fun c => if c = ' ' then '_' else c)
  underscored.take 100

/-- C10: the sanitized filename has length at most 100 and contains no
space and none of the nine invalid filename characters. -/
theorem sanitize_filename_props (name : List Char) :
    (sanitize_filename name).length ≤ 100 ∧
      ∀ c ∈ sanitize_filename name,
        c ≠ ' ' ∧ c ∉ ['<', '>', ':', '"', '/', '\\', '|', '?', '*'] := by
  constructor
  · simp [sanitize_filename]
  · intro c hc
    unfold sanitize_filename at hc
    have hmap := List.mem_of_mem_take hc
    rcases List.mem_map.mp hmap with ⟨b, hb, hbc⟩
    rcases List.mem_filter.mp hb with ⟨-, hbinv⟩
    by_cases hsp : b = ' '
    · subst hsp
      simp only [if_pos rfl] at hbc
      subst hbc
      decide
    · rw [if_neg hsp] at hbc
      subst hbc
      refine ⟨hsp, ?_⟩
      intro hmem
      have hcon : (['<', '>', ':', '"', '/', '\\', '|', '?', '*'].contains b) = true := by
        simpa using hmem
      simp at hbinv hmem
      tauto

/-- Model of the whitespace characters removed by Python `str.strip()`
with no argument (the ASCII whitespace class). -/
def pyIsSpace (c : Char) : Bool :=
  [' ', '\t', '\n', '\x0b', '\x0c', '\r'].contains c

/-- Model of Python `str.strip()`: drop whitespace from both ends. -/
def pyStrip (text : List Char) : List Char :=
  (text.dropWhile pyIsSpace).rdropWhile pyIsSpace

/-- Blankness test `not line.strip()` used throughout the scripts. -/
def isBlankLine (line : List Char) : Bool :=
  (pyStrip line).isEmpty

/-- Loop body of `split_into_sections` from `create_lyrics_pptx.py`
(lines 272-288): `current_section` accumulates the run of non-blank
lines seen since the last flush. -/
def splitSectionsGo (current_section : List (List Char)) :
    List (List Char) → List (List (List Char))
  | [] => if current_section.isEmpty then [] else [current_section]
  | line :: rest =>
      if isBlankLine line then
        if current_section.isEmpty then splitSectionsGo [] rest
        else current_section :: splitSectionsGo [] rest
      else splitSectionsGo (current_section ++ [line]) rest

/-- Embedding of `split_into_sections` from `create_lyrics_pptx.py`
(lines 272-288). -/
def split_into_sections (lines : List (List Char)) : List (List (List Char)) :=
  splitSectionsGo [] lines

lemma splitSectionsGo_props (lines : List (List Char)) :
    ∀ current_section : List (List Char),
      (∀ l ∈ current_section, isBlankLine l = false) →
      (∀ s ∈ splitSectionsGo current_section lines,
          s ≠ [] ∧ ∀ l ∈ s, isBlankLine l = false) ∧
        (splitSectionsGo current_section lines).flatten
          = current_section ++ lines.filter (fun l => !(isBlankLine l)) := by
  induction lines with
  | nil =>
      intro cur hcur
      by_cases hc : cur.isEmpty
      · rw [List.isEmpty_iff] at hc
        subst hc
        simp [splitSectionsGo]
      · constructor
        · intro s hs
          simp only [splitSectionsGo, if_neg hc, List.mem_singleton] at hs
          subst hs
          exact ⟨fun he => hc (by simp [he]), hcur⟩
        · have hne : cur ≠ [] := fun he => hc (by simp [he])
          simp [splitSectionsGo, if_neg hc, hne]
  | cons line rest ih =>
      intro cur hcur
      by_cases hb : isBlankLine line
      · by_cases hc : cur.isEmpty
        · rw [List.isEmpty_iff] at hc
          subst hc
          have h := ih [] (by simp)
          constructor
          · simpa [splitSectionsGo, hb] using h.1
          · simp [splitSectionsGo, hb, h.2, List.filter_cons, hb]
        · have h := ih [] (by simp)
          constructor
          · intro s hs
            simp only [splitSectionsGo, hb, if_true, if_neg hc, List.mem_cons] at hs
            rcases hs with rfl | hs
            · exact ⟨fun he => hc (by simp [he]), hcur⟩
            · exact h.1 s hs
          · have hne : cur ≠ [] := fun he => hc (by simp [he])
            simp [splitSectionsGo, hb, if_neg hc, hne, h.2, List.filter_cons]
      · have hcur2 : ∀ l ∈ cur ++ [line], isBlankLine l = false := by
          intro l hl
          rcases List.mem_append.mp hl with hl | hl
          · exact hcur l hl
          · rw [List.mem_singleton] at hl
            subst hl
            exact Bool.not_eq_true _ ▸ hb
        have h := ih (cur ++ [line]) hcur2
        constructor
        · simpa [splitSectionsGo, hb] using h.1
        · simp only [splitSectionsGo, hb, if_false, Bool.false_eq_true]
          rw [h.2, List.filter_cons]
          simp [hb]

/-- C6: the sections are exactly the maximal runs of non-blank lines —
each section is non-empty, every line of every section is non-blank,
and concatenating the sections yields the non-blank subsequence of the
input. -/
theorem split_into_sections_props (lines : List (List Char)) :
    (∀ s ∈ split_into_sections lines, s ≠ [] ∧ ∀ l ∈ s, isBlankLine l = false) ∧
      (split_into_sections lines).flatten
        = lines.filter (fun l => !(isBlankLine l)) := by
  have h := splitSectionsGo_props lines [] (by simp)
  exact ⟨h.1, by simpa using h.2⟩

/-- Model of `pptx`'s `RGBColor` value: a red/green/blue triple. -/
structure RGBColor where
  r : Nat
  g : Nat
  b : Nat
deriving DecidableEq, Repr

/-- Embedding of `SECTION_COLORS` from `create_lyrics_pptx.py` (lines
262-269); `webapp/backend/main.py` declares the same six colors. -/
def SECTION_COLORS : List RGBColor :=
  [⟨240, 240, 255⟩, ⟨255, 220, 180⟩, ⟨180, 255, 200⟩,
   ⟨255, 200, 220⟩, ⟨200, 220, 255⟩, ⟨255, 255, 180⟩]

/-- Loop body of `assign_section_colors`: `total` is the number of
sections of the whole input and `i` the index of the current one; the
palette lookup `SECTION_COLORS[i % len(SECTION_COLORS)]` is in range,
so `getD`'s default is never reached. -/
def assignSectionColorsGo (total : Nat) :
    Nat → List (List (List Char)) → List (List Char × RGBColor)
  | _, [] => []
  | i, sec :: rest =>
      sec.map
          (fun line => (line, SECTION_COLORS.getD (i % SECTION_COLORS.length) ⟨0, 0, 0⟩))
        ++ (if i < total - 1 then [(([] : List Char), SECTION_COLORS.getD 0 ⟨0, 0, 0⟩)] else [])
        ++ assignSectionColorsGo total (i + 1) rest

/-- Embedding of `assign_section_colors` from `create_lyrics_pptx.py`
(lines 291-301); the same loop is inlined in `generate_pptx` of
`webapp/backend/main.py` (lines 246-251). -/
def assign_section_colors (sections : List (List (List Char))) : List (List Char × RGBColor) :=
  assignSectionColorsGo sections.length 0 sections

lemma assignSectionColorsGo_spec (total : Nat) :
    ∀ (sections : List (List (List Char))) (i : Nat), total = i + sections.length →
      assignSectionColorsGo total i sections
        = ((List.enumFrom i sections).map
            (fun p => p.2.map (fun line => (line, SECTION_COLORS.getD (p.1 % 6) ⟨0, 0, 0⟩))
              ++ if p.1 + 1 < total
                 then [(([] : List Char), SECTION_COLORS.getD 0 ⟨0, 0, 0⟩)]
                 else [])).flatten := by
  intro sections
  induction sections with
  | nil => intro i _; rfl
  | cons sec rest ih =>
      intro i htot
      have hcond : (i < total - 1) ↔ (i + 1 < total) := by
        simp only [List.length_cons] at htot
        omega
      simp only [assignSectionColorsGo, List.enumFrom, List.map_cons, List.flatten_cons]
      rw [ih (i + 1) (by simp at htot ⊢; omega)]
      have hlen : SECTION_COLORS.length = 6 := rfl
      rw [hlen]
      simp only [hcond, List.append_assoc]

/-- C7: `assign_section_colors` gives every line of the `i`-th section
the color `SECTION_COLORS[i % 6]`, and puts a single blank line colored
`SECTION_COLORS[0]` between consecutive sections but none after the
last: the output equals the flattened, enumerated sections with that
separator appended to every section except the last. -/
theorem assign_section_colors_spec (sections : List (List (List Char))) :
    assign_section_colors sections
      = (sections.enum.map
          (fun p => p.2.map (fun line => (line, SECTION_COLORS.getD (p.1 % 6) ⟨0, 0, 0⟩))
            ++ if p.1 + 1 < sections.length
               then [(([] : List Char), SECTION_COLORS.getD 0 ⟨0, 0, 0⟩)]
               else [])).flatten := by
  unfold assign_section_colors List.enum
  exact assignSectionColorsGo_spec sections.length sections 0 (by simp)

/-- Loop body of `parse_lyrics_file` from `create_lyrics_pptx.py`
(lines 316-323): a line starting with the two characters of the string
literal used by `line.startswith('# ')` replaces the title, every other
line is kept after punctuation cleaning. -/
def parseLyricsLoop (title : List Char) (lyrics_lines : List (List Char)) :
    List (List Char) → List Char × List (List Char)
  | [] => (title, lyrics_lines)
  | line :: rest =>
      if line.take 2 = ['#', ' '] then
        parseLyricsLoop (pyStrip (line.drop 2)) lyrics_lines rest
      else
        parseLyricsLoop title (lyrics_lines ++ [clean_punctuation line]) rest

/-- Embedding of `parse_lyrics_file` from `create_lyrics_pptx.py`
(lines 304-331): the file content is stripped and split on newlines,
the loop collects title and cleaned lines, then the two `while` loops
pop blank lines from the front and from the back.  The filename stem is
a parameter; `stem.replace('_', ' ')` seeds the title. -/
def parse_lyrics_file (stem content : List Char) : List Char × List (List Char) :=
  let lines := (pyStrip content).splitOn '\n'
  let parsed := parseLyricsLoop (stem.map (fun c => if c = '_' then ' ' else c)) [] lines
  (parsed.1, (parsed.2.dropWhile isBlankLine).rdropWhile isBlankLine)

lemma parseLyricsLoop_mem (lines : List (List Char)) :
    ∀ (title : List Char) (lyrics_lines : List (List Char)),
      (∀ l ∈ lyrics_lines, ',' ∉ l ∧ '.' ∉ l) →
      ∀ l ∈ (parseLyricsLoop title lyrics_lines lines).2, ',' ∉ l ∧ '.' ∉ l := by
  induction lines with
  | nil =>
      intro t ly h
      simpa [parseLyricsLoop] using h
  | cons line rest ih =>
      intro t ly h
      by_cases hs : line.take 2 = ['#', ' ']
      · simp only [parseLyricsLoop, if_pos hs]
        exact ih _ ly h
      · simp only [parseLyricsLoop, if_neg hs]
        apply ih
        intro l hl
        rcases List.mem_append.mp hl with hl | hl
        · exact h l hl
        · rw [List.mem_singleton] at hl
          subst hl
          exact comma_not_mem_clean_punctuation line

lemma head_of_prefix_rel {l₁ l₂ : List α} (hp : l₁ <+: l₂) (h1 : l₁ ≠ []) (h2 : l₂ ≠ []) :
    l₁.head h1 = l₂.head h2 := by
  rcases hp with ⟨t, rfl⟩
  cases l₁ with
  | nil => exact absurd rfl h1
  | cons a l => rfl

lemma trimBlank_props (P : List Char → Prop) (ly : List (List Char))
    (hP : ∀ l ∈ ly, P l) :
    (∀ l ∈ (ly.dropWhile isBlankLine).rdropWhile isBlankLine, P l) ∧
      ∀ h : (ly.dropWhile isBlankLine).rdropWhile isBlankLine ≠ [],
        isBlankLine (((ly.dropWhile isBlankLine).rdropWhile isBlankLine).head h) = false ∧
          isBlankLine (((ly.dropWhile isBlankLine).rdropWhile isBlankLine).getLast h) = false := by
  have hsub : List.Sublist ((ly.dropWhile isBlankLine).rdropWhile isBlankLine) ly :=
    (List.rdropWhile_prefix isBlankLine _).sublist.trans (List.dropWhile_sublist isBlankLine)
  constructor
  · intro l hl
    exact hP l (hsub.subset hl)
  · intro h
    have hdrop : ly.dropWhile isBlankLine ≠ [] := by
      intro he
      rw [he] at h
      exact h (List.rdropWhile_nil isBlankLine)
    constructor
    · rw [head_of_prefix_rel (List.rdropWhile_prefix isBlankLine _) h hdrop]
      exact List.head_dropWhile_not isBlankLine ly hdrop
    · exact Bool.eq_false_iff.mpr (List.rdropWhile_last_not isBlankLine _ h)

/-- C9 counterexample: on the file content `#. a` the single input line
does not start with the hash marker, so it is kept, but removing the
period turns it into a lyric line that does start with the marker. -/
theorem parse_lyrics_file_hash_counterexample :
    ¬ ∀ l ∈ (parse_lyrics_file [] ['#', '.', ' ', 'a']).2, ¬ (l.take 2 = ['#', ' ']) := by
  decide

/-- C9 amended: every lyric line returned by `parse_lyrics_file`
contains no comma and no period, and when the list is non-empty its
first and last lines are non-blank; a kept line may still start with
the hash marker when punctuation removal creates one. -/
theorem parse_lyrics_file_props (stem content : List Char) :
    (∀ l ∈ (parse_lyrics_file stem content).2, ',' ∉ l ∧ '.' ∉ l) ∧
      ∀ h : (parse_lyrics_file stem content).2 ≠ [],
        isBlankLine ((parse_lyrics_file stem content).2.head h) = false ∧
          isBlankLine ((parse_lyrics_file stem content).2.getLast h) = false := by
  unfold parse_lyrics_file
  exact trimBlank_props _ _
    (parseLyricsLoop_mem ((pyStrip content).splitOn '\n') _ [] (by simp))

/-- Witness for `parse_lyrics_file_props` at a concrete input. -/
theorem parse_lyrics_file_props_witness :
    isBlankLine ((parse_lyrics_file [] ['a']).2.head (by decide)) = false ∧
      isBlankLine ((parse_lyrics_file [] ['a']).2.getLast (by decide)) = false :=
  (parse_lyrics_file_props [] ['a']).2 (by decide)

/-- Witness for `clean_punctuation_props` at a concrete input. -/
theorem clean_punctuation_props_witness :
    clean_punctuation (clean_punctuation ['a', ',', '.']) = clean_punctuation ['a', ',', '.'] ∧
      ',' ∉ clean_punctuation ['a', ',', '.'] ∧ '.' ∉ clean_punctuation ['a', ',', '.'] :=
  clean_punctuation_props ['a', ',', '.']

/-- Witness for `split_into_sections_props` at a concrete input. -/
theorem split_into_sections_props_witness :
    (split_into_sections [['a'], [' '], ['b']]).flatten
      = [['a'], [' '], ['b']].filter (fun l => !(isBlankLine l)) :=
  (split_into_sections_props [['a'], [' '], ['b']]).2

/-- Witness for `sanitize_filename_props` at a concrete input. -/
theorem sanitize_filename_props_witness :
    (sanitize_filename ['a', ' ', '/']).length ≤ 100 ∧
      ∀ c ∈ sanitize_filename ['a', ' ', '/'],
        c ≠ ' ' ∧ c ∉ ['<', '>', ':', '"', '/', '\\', '|', '?', '*'] :=
  sanitize_filename_props ['a', ' ', '/']
